import Mathlib

/-!
A shallow embedding of the core of the `raft-autopilot` repository
(`types.go` and the reconcile/prune source file), together with proofs
about the embedded operations.

Modelling conventions:
* `raft.ServerID` is a Go string; it is embedded as `String`.
* Go maps are embedded as association lists `List (key × value)`.  The
  list order stands for one concrete iteration order of the map (Go map
  iteration order is unspecified), so theorems quantifying over all
  lists cover all iteration orders.  Writes to a map key are embedded by
  `insertKey` (remove every binding of the key, then append the new
  binding), reads by `List.lookup`, deletion by `eraseKey`.
* Go `uint64` arithmetic is embedded as `Nat` with an explicit
  `% uint64Size` at the one place where an addition can overflow
  (`isHealthy`).  Comparisons of `uint64` values never overflow and are
  embedded as plain `Nat` comparisons.
* Go `int` division truncates toward zero; this is `Int.div`.
* `time.Duration` is a signed 64-bit count of nanoseconds; it is
  embedded as `Int` (its comparisons cannot overflow here).
* Fields of the Go structs that none of the embedded operations read
  (`Version`, `Meta`, `RaftVersion`, `IsLeader`, `Ext`, the wall-clock
  timestamps, and the logger) are omitted; no embedded code path
  depends on them.
-/

namespace Autopilot

/-- `raft.ServerID` (an opaque string identifier). -/
abbrev ServerID := String

/-- `RaftState` from types.go: the consensus role of a single server. -/
inductive RaftState where
  | rsNone
  | leader
  | voter
  | nonVoter
  | staging
deriving DecidableEq

/-- `NodeStatus` from types.go: liveness as known to the embedder. -/
inductive NodeStatus where
  | unknown
  | alive
  | failed
  | left
deriving DecidableEq

/-- `NodeType` from types.go is a string type; `NodeVoter` is its only
declared constant. -/
abbrev NodeType := String

/-- The constant `NodeVoter NodeType = "voter"`. -/
def NodeVoter : NodeType := "voter"

/-- `raft.ServerSuffrage` from the consensus layer. -/
inductive RaftSuffrage where
  | voter
  | nonvoter
  | staging
deriving DecidableEq

/-- One entry of `raft.Configuration.Servers` (only the fields the
embedded code reads: `ID` and `Suffrage`; `Address` is carried along). -/
structure RaftServerRec where
  id : ServerID
  address : String
  suffrage : RaftSuffrage
deriving DecidableEq

/-- `VoterEligibility` from types.go. -/
structure VoterEligibility where
  currentVoter : Bool
  potentialVoter : Bool
deriving DecidableEq

/-- `VoterEligibility.IsCurrentVoter`. -/
def VoterEligibility.IsCurrentVoter (v : VoterEligibility) : Bool :=
  v.currentVoter

/-- `VoterEligibility.IsPotentialVoter`. -/
def VoterEligibility.IsPotentialVoter (v : VoterEligibility) : Bool :=
  v.potentialVoter

/-- `RaftServerEligibility = map[raft.ServerID]*VoterEligibility`,
embedded as an association list in map-iteration order.  All values in
the embedded maps are non-nil: every value the source ever stores is
created by `getRaftServerIds`, so the `v != nil` guards of the source
are always true and are dropped. -/
abbrev RaftServerEligibility := List (ServerID × VoterEligibility)

/-- `RaftServers` is the alias used by the reconcile/prune source file
for `RaftServerEligibility`. -/
abbrev RaftServers := RaftServerEligibility

/-- Map write `m[k] = v`: drop every binding of `k`, append the new
binding (iteration order of a Go map is unspecified; this fixes one). -/
def insertKey : RaftServerEligibility → ServerID → VoterEligibility →
    RaftServerEligibility
  | [], k, v => [(k, v)]
  | e :: rest, k, v =>
    if e.1 == k then insertKey rest k v else e :: insertKey rest k v

/-- Map deletion `delete(m, k)`: removes the binding of `k` (the first
one, which is the only one for maps built by `insertKey`). -/
def eraseKey (k : ServerID) : RaftServerEligibility → RaftServerEligibility
  | [] => []
  | e :: rest => if e.1 == k then rest else e :: eraseKey k rest

/-- Number of bindings of key `k` (used to state the bucket-partition
invariant). -/
def countKey (k : ServerID) (l : RaftServerEligibility) : Nat :=
  l.countP (fun e => e.1 == k)

/-- `ServerStats` from types.go. -/
structure ServerStats where
  lastContact : Int
  lastTerm : Nat
  lastIndex : Nat
deriving DecidableEq

/-- `ServerHealth` from types.go (the `StableSince` timestamp is read
only by `IsStable`, which is outside the embedded operations). -/
structure ServerHealth where
  healthy : Bool
deriving DecidableEq

/-- `Server` from types.go (the fields the embedded code reads). -/
structure Server where
  id : ServerID
  name : String
  address : String
  nodeStatus : NodeStatus
  nodeType : NodeType
deriving DecidableEq

/-- `ServerState` from types.go. -/
structure ServerState where
  server : Server
  state : RaftState
  stats : ServerStats
  health : ServerHealth
deriving DecidableEq

/-- `ServerState.HasVotingRights`. -/
def ServerState.HasVotingRights (s : ServerState) : Bool :=
  s.state == RaftState.voter || s.state == RaftState.leader

/-- `Config` from types.go. -/
structure Config where
  cleanupDeadServers : Bool
  lastContactThreshold : Int
  maxTrailingLogs : Nat
  minQuorum : Nat
  serverStabilizationTime : Int
deriving DecidableEq

/-- `State` from types.go (the `firstStateTime` timestamp is read only
by `State.ServerStabilizationTime`, outside the embedded operations). -/
structure State where
  healthy : Bool
  failureTolerance : Int
  servers : List (ServerID × ServerState)
  leader : ServerID
  voters : List ServerID
deriving DecidableEq

/-- `RaftChanges` from types.go. -/
structure RaftChanges where
  promotions : List ServerID
  demotions : List ServerID
  leader : ServerID
deriving DecidableEq

/-- `2^64`: the modulus of Go `uint64` arithmetic. -/
def uint64Size : Nat := 2 ^ 64

/-- `ServerState.isHealthy` from types.go.  The one `uint64` addition
that can overflow, `s.Stats.LastIndex + conf.MaxTrailingLogs`, is Go
wrapping arithmetic and is embedded with an explicit `% uint64Size`. -/
def ServerState.isHealthy (s : ServerState) (lastTerm : Nat)
    (leaderLastIndex : Nat) (conf : Config) : Bool :=
  if leaderLastIndex == 0 || lastTerm == 0 then false
  else if s.server.nodeStatus != NodeStatus.alive then false
  else if s.stats.lastContact > conf.lastContactThreshold ||
      s.stats.lastContact < 0 then false
  else if s.stats.lastTerm != lastTerm then false
  else if (s.stats.lastIndex + conf.maxTrailingLogs) % uint64Size <
      leaderLastIndex then false
  else true

/-- Modelled from the spec: the trailing-log comparison of the health
predicate computed with addition "saturating at the maximum unsigned
value to avoid wraparound", as the spec words it; every other branch is
as in the source.  Present only to be compared with the source-derived
`ServerState.isHealthy`. -/
def ServerState.isHealthySaturating (s : ServerState) (lastTerm : Nat)
    (leaderLastIndex : Nat) (conf : Config) : Bool :=
  if leaderLastIndex == 0 || lastTerm == 0 then false
  else if s.server.nodeStatus != NodeStatus.alive then false
  else if s.stats.lastContact > conf.lastContactThreshold ||
      s.stats.lastContact < 0 then false
  else if s.stats.lastTerm != lastTerm then false
  else if min (s.stats.lastIndex + conf.maxTrailingLogs) (uint64Size - 1) <
      leaderLastIndex then false
  else true

/-- `RaftServerEligibility.FilterVoters` from types.go. -/
def RaftServerEligibility.FilterVoters (s : RaftServerEligibility)
    (isCurrentVoter : Bool) : RaftServerEligibility :=
  s.filter (fun e => e.2.IsCurrentVoter == isCurrentVoter)

/-- `CategorizedServers` from types.go. -/
structure CategorizedServers where
  StaleNonVoters : RaftServerEligibility
  StaleVoters : RaftServerEligibility
  FailedNonVoters : RaftServerEligibility
  FailedVoters : RaftServerEligibility
  HealthyNonVoters : RaftServerEligibility
  HealthyVoters : RaftServerEligibility
deriving DecidableEq

/-- Potential-voter bindings in one bucket. -/
def countPotential (s : RaftServerEligibility) : Nat :=
  s.countP (fun e => e.2.potentialVoter)

/-- `CategorizedServers.PotentialVoters` from types.go: the sum over
the four non-stale buckets of the entries whose `potentialVoter` flag
is set. -/
def CategorizedServers.PotentialVoters (c : CategorizedServers) : Nat :=
  countPotential c.FailedNonVoters + countPotential c.FailedVoters +
    countPotential c.HealthyNonVoters + countPotential c.HealthyVoters

/-- `getRaftServerIds` from the reconcile/prune source file. -/
def getRaftServerIds (servers : List RaftServerRec) : RaftServers :=
  servers.foldl
    (fun m s =>
      insertKey m s.id
        { currentVoter := s.suffrage == RaftSuffrage.voter
          potentialVoter := false })
    []

/-- The loop body of `Autopilot.categorizeServers`: iterate the
embedder's known-servers map, moving each matched ID out of the working
map into one of the four non-stale buckets.  The source inserts the
shared `*VoterEligibility` into the bucket and then calls
`SetPotentialVoter` on it; since the two bucket entries alias, this is
embedded by setting `potentialVoter` before the insertion (the
`currentVoter` field the branch conditions read is unchanged either
way). -/
def categorizeLoop : List (ServerID × Server) → RaftServers →
    RaftServers → RaftServers → RaftServers → RaftServers →
    CategorizedServers
  | [], raftServers, failedVoters, failedNonVoters, healthyVoters,
      healthyNonVoters =>
    { StaleNonVoters := raftServers.FilterVoters false
      StaleVoters := raftServers.FilterVoters true
      FailedNonVoters := failedNonVoters
      FailedVoters := failedVoters
      HealthyNonVoters := healthyNonVoters
      HealthyVoters := healthyVoters }
  | (id, srv) :: rest, raftServers, failedVoters, failedNonVoters,
      healthyVoters, healthyNonVoters =>
    match List.lookup id raftServers with
    | none =>
      categorizeLoop rest raftServers failedVoters failedNonVoters
        healthyVoters healthyNonVoters
    | some v =>
      let raftServers := eraseKey id raftServers
      let v := { v with potentialVoter := srv.nodeType == NodeVoter }
      if srv.nodeStatus == NodeStatus.alive && v.IsCurrentVoter then
        categorizeLoop rest raftServers failedVoters failedNonVoters
          (healthyVoters ++ [(id, v)]) healthyNonVoters
      else if srv.nodeStatus == NodeStatus.alive then
        categorizeLoop rest raftServers failedVoters failedNonVoters
          healthyVoters (healthyNonVoters ++ [(id, v)])
      else if v.IsCurrentVoter then
        categorizeLoop rest raftServers (failedVoters ++ [(id, v)])
          failedNonVoters healthyVoters healthyNonVoters
      else
        categorizeLoop rest raftServers failedVoters
          (failedNonVoters ++ [(id, v)]) healthyVoters healthyNonVoters

/-- `Autopilot.categorizeServers`, as a function of its two inputs: the
consensus configuration (`a.getRaftConfiguration().Servers`) and the
embedder's `a.delegate.KnownServers()` map. -/
def categorizeServers (cfg : List RaftServerRec)
    (known : List (ServerID × Server)) : CategorizedServers :=
  categorizeLoop known (getRaftServerIds cfg) [] [] [] []

/-- `getFailureTolerance` from the reconcile/prune source file.  Go
`int` division truncates toward zero, which is `Int.tdiv`. -/
def getFailureTolerance (nodes : Int) : Int :=
  Int.tdiv (nodes - 1) 2

/-- `isRemovalQuorate` from the reconcile/prune source file
(`voters-1 >= int(minQuorum)`; the `uint` → `int` conversion is the
plain numeric value — it could only wrap beyond `2^63`, which no
embedded value reaches). -/
def isRemovalQuorate (voters : Int) (minQuorum : Nat) : Bool :=
  decide ((minQuorum : Int) ≤ voters - 1)

/-- The loop of `adjudicateRemoval`.  `kept` holds the entries already
visited and refused (still in the map), `pending` the entries not yet
visited, `ids` the IDs emitted so far.  The Go
`voterCountProvider func() int` closure is `servers.PotentialVoters`,
which reads the four non-stale buckets of the shared
`CategorizedServers`; during one adjudication the only one of those
maps that changes is the bucket being adjudicated itself (by the
`delete(s, id)` in the accept branches), so the closure is embedded as
a function `counter` of the current contents of that bucket.  At each
evaluation point the map still contains the entry under examination,
so `counter` is applied to `kept ++ (id, v) :: rest`. -/
def adjudicateLoop (counter : RaftServers → Int) (minQuorum : Nat) :
    Int → RaftServers → RaftServers → List ServerID →
    List ServerID × RaftServers
  | _, kept, [], ids => (ids, kept)
  | failureTolerance, kept, (id, v) :: rest, ids =>
    if failureTolerance < 1 then
      adjudicateLoop counter minQuorum failureTolerance (kept ++ [(id, v)])
        rest ids
    else if v.IsPotentialVoter &&
        !(isRemovalQuorate (counter (kept ++ (id, v) :: rest)) minQuorum) then
      adjudicateLoop counter minQuorum failureTolerance (kept ++ [(id, v)])
        rest ids
    else if v.IsCurrentVoter then
      adjudicateLoop counter minQuorum (failureTolerance - 1) kept rest
        (ids ++ [id])
    else
      adjudicateLoop counter minQuorum failureTolerance kept rest
        (ids ++ [id])

/-- `adjudicateRemoval` from the reconcile/prune source file.  Returns
the emitted IDs together with the final contents of the (mutated-in-
place) candidate bucket. -/
def adjudicateRemoval (counter : RaftServers → Int) (s : RaftServers)
    (minQuorum : Nat) : List ServerID × RaftServers :=
  adjudicateLoop counter minQuorum (getFailureTolerance (counter s)) [] s []

/-- The shape of the `voterCountProvider` closure at the two failed-
bucket call sites of `pruneDeadServers`: `servers.PotentialVoters`
restricted to one adjudication is `base` (the potential voters of the
three buckets the adjudication does not touch) plus the potential
voters of the current contents of the adjudicated bucket.  At the
stale-voters call site the adjudicated bucket is not among the four
summed buckets, so there the closure is the constant
`fun x => c.PotentialVoters`. -/
def potCounter (base : Nat) : RaftServers → Int :=
  fun rem => ((base + countPotential rem : Nat) : Int)

/-- The `voterCountProvider` closure at the stale-voters call site of
`pruneDeadServers`: `servers.PotentialVoters` reads only the four
non-stale buckets, none of which alias the stale bucket being
adjudicated, so the closure is constant during that adjudication. -/
def staleCounter (c : CategorizedServers) : RaftServers → Int :=
  fun _ => (c.PotentialVoters : Nat)

/-- The instrumented mirror of `adjudicateLoop`: identical control
flow, but additionally records, in order, the value of every evaluation
of the `voterCountProvider` closure made inside the loop.  The closure
is evaluated exactly when the first branch is not taken and
`v.IsPotentialVoter()` holds (Go `&&` short-circuits, and the `v != nil`
conjunct is always true in the embedding). -/
def adjudicateLoopT (counter : RaftServers → Int) (minQuorum : Nat) :
    Int → RaftServers → RaftServers → List ServerID → List Int →
    List ServerID × RaftServers × List Int
  | _, kept, [], ids, trace => (ids, kept, trace)
  | failureTolerance, kept, (id, v) :: rest, ids, trace =>
    if failureTolerance < 1 then
      adjudicateLoopT counter minQuorum failureTolerance (kept ++ [(id, v)])
        rest ids trace
    else if v.IsPotentialVoter then
      let c := counter (kept ++ (id, v) :: rest)
      if !(isRemovalQuorate c minQuorum) then
        adjudicateLoopT counter minQuorum failureTolerance (kept ++ [(id, v)])
          rest ids (trace ++ [c])
      else if v.IsCurrentVoter then
        adjudicateLoopT counter minQuorum (failureTolerance - 1) kept rest
          (ids ++ [id]) (trace ++ [c])
      else
        adjudicateLoopT counter minQuorum failureTolerance kept rest
          (ids ++ [id]) (trace ++ [c])
    else if v.IsCurrentVoter then
      adjudicateLoopT counter minQuorum (failureTolerance - 1) kept rest
        (ids ++ [id]) trace
    else
      adjudicateLoopT counter minQuorum failureTolerance kept rest
        (ids ++ [id]) trace

/-- `adjudicateRemoval` with the evaluation trace of the
`voterCountProvider` closure: the initial evaluation for
`getFailureTolerance` followed by the in-loop evaluations recorded by
`adjudicateLoopT`. -/
def adjudicateRemovalT (counter : RaftServers → Int) (s : RaftServers)
    (minQuorum : Nat) : List ServerID × RaftServers × List Int :=
  adjudicateLoopT counter minQuorum (getFailureTolerance (counter s)) [] s []
    [counter s]

/-- The membership-change and removal calls the autopilot makes to the
consensus adapter (`addVoter`, `demoteVoter`, `leadershipTransfer`,
`removeServer`) and to the embedder (`RemoveFailedServer`).  A run of
the embedded reconciler produces the ordered list of calls it issued. -/
inductive AdapterCall where
  | addVoter (id : ServerID)
  | demoteVoter (id : ServerID)
  | leadershipTransfer (id : ServerID)
  | removeServer (id : ServerID)
  | removeFailedServer (id : ServerID)
deriving DecidableEq

/-- The error outcomes of `Autopilot.reconcile` (by semantics; the Go
values are `fmt.Errorf` strings). -/
inductive RecError where
  | preconditionNotMet
  | unknownTransferTarget (id : ServerID)
  | adapterFailure (id : ServerID)
deriving DecidableEq

/-- The loop of `Autopilot.applyPromotions`.  Adapter outcomes are an
oracle `addOk`: the call `a.addVoter(id, addr)` succeeds iff
`addOk id`.  Returns (promoted, issued calls, error). -/
def promoLoop (state : State) (addOk : ServerID → Bool) :
    List ServerID → Bool → Bool × List AdapterCall × Option RecError
  | [], promoted => (promoted, [], none)
  | change :: rest, promoted =>
    match List.lookup change state.servers with
    | none => promoLoop state addOk rest promoted
    | some srv =>
      if srv.HasVotingRights then promoLoop state addOk rest promoted
      else if !srv.health.healthy then promoLoop state addOk rest promoted
      else if addOk srv.server.id then
        let r := promoLoop state addOk rest true
        (r.1, AdapterCall.addVoter srv.server.id :: r.2.1, r.2.2)
      else
        (true, [AdapterCall.addVoter srv.server.id],
          some (RecError.adapterFailure srv.server.id))

/-- `Autopilot.applyPromotions`. -/
def applyPromotions (state : State) (changes : RaftChanges)
    (addOk : ServerID → Bool) : Bool × List AdapterCall × Option RecError :=
  promoLoop state addOk changes.promotions false

/-- The loop of `Autopilot.applyDemotions`, with a `demOk` oracle for
the outcomes of `a.demoteVoter(id)`. -/
def demoLoop (state : State) (demOk : ServerID → Bool) :
    List ServerID → Bool → Bool × List AdapterCall × Option RecError
  | [], demoted => (demoted, [], none)
  | change :: rest, demoted =>
    match List.lookup change state.servers with
    | none => demoLoop state demOk rest demoted
    | some srv =>
      if srv.state == RaftState.nonVoter then demoLoop state demOk rest demoted
      else if demOk srv.server.id then
        let r := demoLoop state demOk rest true
        (r.1, AdapterCall.demoteVoter srv.server.id :: r.2.1, r.2.2)
      else
        (true, [AdapterCall.demoteVoter srv.server.id],
          some (RecError.adapterFailure srv.server.id))

/-- `Autopilot.applyDemotions`. -/
def applyDemotions (state : State) (changes : RaftChanges)
    (demOk : ServerID → Bool) : Bool × List AdapterCall × Option RecError :=
  demoLoop state demOk changes.demotions false

/-- `Autopilot.reconcile`, as a function of its inputs:
`a.ReconciliationEnabled()`, `a.delegate.AutopilotConfig()`,
`a.GetState()`, the promoter's `CalculatePromotionsAndDemotions`, and
the adapter outcome oracles.  Returns the ordered list of adapter calls
issued during the pass together with the returned error. -/
def reconcile (enabled : Bool) (confOpt : Option Config)
    (stateOpt : Option State) (promoter : Config → State → RaftChanges)
    (addOk demOk trOk : ServerID → Bool) :
    List AdapterCall × Option RecError :=
  if !enabled then ([], none)
  else
    match confOpt with
    | none => ([], none)
    | some conf =>
      match stateOpt with
      | none => ([], some RecError.preconditionNotMet)
      | some state =>
        if state.leader == "" then ([], some RecError.preconditionNotMet)
        else
          let changes := promoter conf state
          let rp := applyPromotions state changes addOk
          if rp.1 then (rp.2.1, rp.2.2)
          else
            let rd := applyDemotions state changes demOk
            if rd.1 then (rp.2.1 ++ rd.2.1, rd.2.2)
            else if changes.leader == "" || changes.leader == state.leader then
              (rp.2.1 ++ rd.2.1, none)
            else
              match List.lookup changes.leader state.servers with
              | none =>
                (rp.2.1 ++ rd.2.1,
                  some (RecError.unknownTransferTarget changes.leader))
              | some _ =>
                (rp.2.1 ++ rd.2.1 ++
                    [AdapterCall.leadershipTransfer changes.leader],
                  if trOk changes.leader then none
                  else some (RecError.adapterFailure changes.leader))

/-- A state map is key-consistent when every binding's record carries
the binding's own key as its `Server.ID` (true of every state the
snapshot builder produces; stated as the Boolean `List.all` so concrete
instances are decidable). -/
def keyConsistent (state : State) : Bool :=
  state.servers.all (fun e => e.2.server.id == e.1)

/-- Total number of bindings of `k` across the six buckets;
`bucketsCount c k = 1` says `k` is in exactly one bucket, once. -/
def bucketsCount (c : CategorizedServers) (k : ServerID) : Nat :=
  countKey k c.StaleNonVoters + countKey k c.StaleVoters +
    countKey k c.FailedNonVoters + countKey k c.FailedVoters +
    countKey k c.HealthyNonVoters + countKey k c.HealthyVoters

/- Concrete instances used by the scenario theorems and witnesses. -/

/-- The consensus configuration of the stale-voter scenario:
{A, B, C, D}, all voters. -/
def cfgC2 : List RaftServerRec :=
  [⟨"A", "a:8300", RaftSuffrage.voter⟩, ⟨"B", "b:8300", RaftSuffrage.voter⟩,
   ⟨"C", "c:8300", RaftSuffrage.voter⟩, ⟨"D", "d:8300", RaftSuffrage.voter⟩]

/-- The embedder's known servers of the stale-voter scenario: A, B, C,
all alive, all designated potential voters by the policy (`NodeType =
voter`); D is unknown to the embedder. -/
def knownC2 : List (ServerID × Server) :=
  [("A", ⟨"A", "A", "a:8300", NodeStatus.alive, NodeVoter⟩),
   ("B", ⟨"B", "B", "b:8300", NodeStatus.alive, NodeVoter⟩),
   ("C", ⟨"C", "C", "c:8300", NodeStatus.alive, NodeVoter⟩)]

/-- The categorization of the stale-voter scenario. -/
def catC2 : CategorizedServers := categorizeServers cfgC2 knownC2

/-- A failed-voters bucket of two potential current voters (used to
exhibit the in-adjudication variation of the potential-voter count). -/
def bucketDE : RaftServers := [("D", ⟨true, true⟩), ("E", ⟨true, true⟩)]

/-- The same two-element bucket under its two possible map iteration
orders (Go map iteration order is unspecified). -/
def bucketBA : RaftServers := [("b", ⟨true, false⟩), ("a", ⟨true, false⟩)]

/-- See `bucketBA`. -/
def bucketAB : RaftServers := [("a", ⟨true, false⟩), ("b", ⟨true, false⟩)]

/-- An adapter-outcome oracle under which every call succeeds. -/
def allOk : ServerID → Bool := fun _ => true

/-- A healthy, alive server-state binding for concrete states. -/
def mkServerState (id : ServerID) (role : RaftState) (h : Bool) :
    ServerID × ServerState :=
  (id,
    { server :=
        { id := id, name := id, address := id ++ ":8300",
          nodeStatus := NodeStatus.alive, nodeType := NodeVoter }
      state := role
      stats := { lastContact := 0, lastTerm := 1, lastIndex := 1 }
      health := { healthy := h } })

/-- Concrete state: leader A, voter B, healthy non-voter C, staging S. -/
def witState : State :=
  { healthy := true, failureTolerance := 1,
    servers := [mkServerState "A" RaftState.leader true,
                mkServerState "B" RaftState.voter true,
                mkServerState "C" RaftState.nonVoter true,
                mkServerState "S" RaftState.staging true],
    leader := "A", voters := ["A", "B"] }

/-- A promoter returning the mixed change set
`promotions = [C], demotions = [B], leader = B`. -/
def witPromoter : Config → State → RaftChanges :=
  fun _ _ => { promotions := ["C"], demotions := ["B"], leader := "B" }

/-- A concrete autopilot configuration. -/
def witConfig : Config :=
  { cleanupDeadServers := true, lastContactThreshold := 10,
    maxTrailingLogs := 100, minQuorum := 1, serverStabilizationTime := 0 }

/-- A demotion-only change set targeting the staging server S. -/
def witDemChanges : RaftChanges :=
  { promotions := [], demotions := ["S"], leader := "" }

/-- The staging server's state record inside `witState`. -/
def srvS : ServerState := (mkServerState "S" RaftState.staging true).2

/-- An alive voter whose `lastIndex` is the largest `uint64` value, so
that adding any positive `maxTrailingLogs` wraps around. -/
def wrapServer : ServerState :=
  { server :=
      { id := "X", name := "X", address := "x:8300",
        nodeStatus := NodeStatus.alive, nodeType := NodeVoter }
    state := RaftState.voter
    stats := { lastContact := 0, lastTerm := 5, lastIndex := uint64Size - 1 }
    health := { healthy := true } }

/-- Configuration for the wraparound scenario: `maxTrailingLogs = 2`. -/
def wrapConfig : Config :=
  { cleanupDeadServers := true, lastContactThreshold := 10,
    maxTrailingLogs := 2, minQuorum := 1, serverStabilizationTime := 0 }

/-- A small healthy server for the no-overflow witness. -/
def witSrv : ServerState := (mkServerState "A" RaftState.voter true).2

/-! Theorems. -/

/-- C2 (counterexample): in the scenario consensus = {A, B, C, D
voters}, known = {A, B, C} (alive, potential voters), minQuorum = 4,
the adjudication of the stale-voter bucket does not emit the empty
sequence, contrary to the claim. -/
theorem staleVoter_minQuorum_counterexample :
    (adjudicateRemoval (staleCounter catC2) catC2.StaleVoters 4).1 ≠ [] := by
  decide

/-- C2 (amended): in that scenario the stale voter D carries
`potentialVoter = false` (the categorizer never sets the flag of a
server unknown to the embedder), so the minQuorum gate does not apply
to it: D is accepted and the emitted sequence is [D], for a potential
voter count of 3. -/
theorem staleVoter_minQuorum_scenario :
    catC2.StaleVoters = [("D", ⟨true, false⟩)] ∧
    catC2.PotentialVoters = 3 ∧
    adjudicateRemoval (staleCounter catC2) catC2.StaleVoters 4 =
      (["D"], []) := by
  decide

/-- C3 (counterexample): adjudicating the failed-voters bucket
{D, E} (both current and potential voters) with three potential voters
elsewhere and minQuorum 1, the `voterCountProvider` closure is
evaluated three times and returns 5, 5, 4: accepting D deletes it from
the bucket that `PotentialVoters` sums over, so the evaluations within
this single invocation are not all equal. -/
theorem adjudicate_counter_varies_counterexample :
    (adjudicateRemovalT (potCounter 3) bucketDE 1).2.2 = [5, 5, 4] ∧
    ¬ List.Pairwise (fun a b => a = b)
        ((adjudicateRemovalT (potCounter 3) bucketDE 1).2.2) := by
  decide

/-- C4 (counterexample): with `lastIndex = 2^64 - 1` and
`maxTrailingLogs = 2`, the Go `uint64` sum wraps to 1, so the health
check fails (`isHealthy = false`) although the mathematical sum exceeds
the leader's index 10 — the saturating check of the spec would have
passed.  The addition therefore does not saturate. -/
theorem isHealthy_trailing_wraparound_counterexample :
    ServerState.isHealthy wrapServer 5 10 wrapConfig = false ∧
    ServerState.isHealthySaturating wrapServer 5 10 wrapConfig = true ∧
    10 ≤ wrapServer.stats.lastIndex + wrapConfig.maxTrailingLogs := by
  decide

/-- C4 (amended): the trailing-log check is computed with wrapping
(mod `2^64`) addition; whenever `lastIndex + maxTrailingLogs` does not
overflow, the health predicate agrees with the saturating predicate the
spec describes, but on overflow it can fail due to wraparound. -/
theorem isHealthy_trailing_no_overflow (s : ServerState)
    (lastTerm leaderLastIndex : Nat) (conf : Config)
    (h : s.stats.lastIndex + conf.maxTrailingLogs < uint64Size) :
    ServerState.isHealthy s lastTerm leaderLastIndex conf =
      ServerState.isHealthySaturating s lastTerm leaderLastIndex conf := by
  unfold ServerState.isHealthy ServerState.isHealthySaturating
  rw [Nat.mod_eq_of_lt h, Nat.min_eq_left (by omega)]

/-- Witness for `isHealthy_trailing_no_overflow` at a concrete
non-overflowing input. -/
theorem isHealthy_trailing_no_overflow_witness :
    witSrv.stats.lastIndex + witConfig.maxTrailingLogs < uint64Size ∧
    ServerState.isHealthy witSrv 1 1 witConfig =
      ServerState.isHealthySaturating witSrv 1 1 witConfig :=
  ⟨by decide, isHealthy_trailing_no_overflow witSrv 1 1 witConfig (by decide)⟩

/-- C5 (counterexample): `adjudicateRemoval` emits IDs in the map's
iteration order, not in lexicographic ServerID order: the same bucket
contents enumerated as [b, a] and as [a, b] (both orders are possible
for a Go map) yield the emitted sequences [b, a] and [a, b], which
differ, and [b, a] is not lexicographically sorted. -/
theorem adjudicateRemoval_order_counterexample :
    List.Perm bucketBA bucketAB ∧
    (adjudicateRemoval (potCounter 5) bucketBA 0).1 = ["b", "a"] ∧
    (adjudicateRemoval (potCounter 5) bucketAB 0).1 = ["a", "b"] ∧
    (adjudicateRemoval (potCounter 5) bucketBA 0).1 ≠
      (adjudicateRemoval (potCounter 5) bucketAB 0).1 := by
  decide

/-- Loop invariant behind the enumeration-order theorem: the loop only
ever appends to `ids`, and what it appends is a subsequence of the keys
of the entries still pending, in their order. -/
theorem adjudicateLoop_emits_sublist (counter : RaftServers → Int) (m : Nat) :
    ∀ (pending kept : RaftServers) (tol : Int) (ids : List ServerID),
      ∃ t, (adjudicateLoop counter m tol kept pending ids).1 = ids ++ t ∧
        List.Sublist t (pending.map Prod.fst) := by
  intro pending
  induction pending with
  | nil =>
    intro kept tol ids
    exact ⟨[], by simp [adjudicateLoop], List.nil_sublist _⟩
  | cons e rest ih =>
    obtain ⟨id, v⟩ := e
    intro kept tol ids
    simp only [adjudicateLoop]
    split_ifs with h1 h2 h3
    · obtain ⟨t, ht, hs⟩ := ih (kept ++ [(id, v)]) tol ids
      exact ⟨t, ht, by simpa using hs.cons id⟩
    · obtain ⟨t, ht, hs⟩ := ih (kept ++ [(id, v)]) tol ids
      exact ⟨t, ht, by simpa using hs.cons id⟩
    · obtain ⟨t, ht, hs⟩ := ih kept (tol - 1) (ids ++ [id])
      refine ⟨id :: t, ?_, by simpa using hs.cons₂ id⟩
      rw [ht, List.append_assoc]
      rfl
    · obtain ⟨t, ht, hs⟩ := ih kept tol (ids ++ [id])
      refine ⟨id :: t, ?_, by simpa using hs.cons₂ id⟩
      rw [ht, List.append_assoc]
      rfl

/-- C5 (amended): the adjudicator emits IDs in the candidate bucket's
enumeration order — the emitted sequence is a subsequence of the
bucket's keys in map-iteration order.  The source does not sort the
bucket, so the order is the (unspecified) Go map iteration order and is
not lexicographic; see the counterexample. -/
theorem adjudicateRemoval_enumeration_order (counter : RaftServers → Int)
    (s : RaftServers) (m : Nat) :
    List.Sublist (adjudicateRemoval counter s m).1 (s.map Prod.fst) := by
  obtain ⟨t, ht, hs⟩ := adjudicateLoop_emits_sublist counter m s []
    (getFailureTolerance (counter s)) []
  unfold adjudicateRemoval
  rw [ht]
  simpa using hs

/-- Every closure value recorded by the instrumented loop is the value
of the (constant) closure. -/
theorem adjudicateLoopT_const_trace (c : Int) (m : Nat) :
    ∀ (pending kept : RaftServers) (tol : Int) (ids : List ServerID)
      (trace : List Int), trace.all (fun y => y == c) = true →
      ((adjudicateLoopT (fun _ => c) m tol kept pending ids trace).2.2).all
        (fun y => y == c) = true := by
  intro pending
  induction pending with
  | nil =>
    intro kept tol ids trace h
    simpa [adjudicateLoopT] using h
  | cons e rest ih =>
    obtain ⟨id, v⟩ := e
    intro kept tol ids trace h
    simp only [adjudicateLoopT]
    split_ifs with h1 h2 h3 h4 h5
    · exact ih _ _ _ _ h
    · refine ih _ _ _ _ ?_
      simp [List.all_append, h]
    · refine ih _ _ _ _ ?_
      simp [List.all_append, h]
    · refine ih _ _ _ _ ?_
      simp [List.all_append, h]
    · exact ih _ _ _ _ h
    · exact ih _ _ _ _ h

/-- C3 (amended): when the `voterCountProvider` closure does not depend
on the adjudicated bucket — which is the case at the stale-voters call
site, since `PotentialVoters` sums only the four non-stale buckets —
every evaluation made during one adjudication returns the same value.
At the failed-bucket call sites the closure does read the adjudicated
bucket and the value can decrease within one invocation (see the
counterexample). -/
theorem adjudicate_counter_constant_for_stale (c : Int) (s : RaftServers)
    (m : Nat) :
    ((adjudicateRemovalT (fun _ => c) s m).2.2).all (fun y => y == c) =
      true := by
  unfold adjudicateRemovalT
  exact adjudicateLoopT_const_trace c m s [] (getFailureTolerance c) [] [c]
    (by simp)

/-- The instrumented loop computes the same emitted sequence and final
bucket as `adjudicateLoop`; only the evaluation trace is added. -/
theorem adjudicateLoopT_agrees (counter : RaftServers → Int) (m : Nat) :
    ∀ (pending kept : RaftServers) (tol : Int) (ids : List ServerID)
      (trace : List Int),
      ((adjudicateLoopT counter m tol kept pending ids trace).1,
        (adjudicateLoopT counter m tol kept pending ids trace).2.1) =
        adjudicateLoop counter m tol kept pending ids := by
  intro pending
  induction pending with
  | nil =>
    intro kept tol ids trace
    simp [adjudicateLoop, adjudicateLoopT]
  | cons e rest ih =>
    obtain ⟨id, v⟩ := e
    intro kept tol ids trace
    by_cases h1 : tol < 1
    · simp only [adjudicateLoop, adjudicateLoopT, if_pos h1]
      exact ih _ _ _ _
    · by_cases hp : v.IsPotentialVoter
      · by_cases hq : isRemovalQuorate (counter (kept ++ (id, v) :: rest)) m
        · by_cases hv : v.IsCurrentVoter
          · simp only [adjudicateLoop, adjudicateLoopT, if_neg h1, hp, hq, hv]
            simp only [Bool.not_true, Bool.and_false, Bool.false_eq_true,
              if_false, if_true]
            exact ih _ _ _ _
          · simp only [adjudicateLoop, adjudicateLoopT, if_neg h1, hp, hq]
            simp only [Bool.not_true, Bool.and_false, Bool.false_eq_true,
              if_false, if_true, hv]
            exact ih _ _ _ _
        · by_cases hv : v.IsCurrentVoter
          · simp [adjudicateLoop, adjudicateLoopT, if_neg h1, hp, hq, hv,
              ih _ _ _ _]
          · simp [adjudicateLoop, adjudicateLoopT, if_neg h1, hp, hq, hv,
              ih _ _ _ _]
      · by_cases hv : v.IsCurrentVoter
        · simp [adjudicateLoop, adjudicateLoopT, if_neg h1, hp, hv, ih _ _ _ _]
        · simp [adjudicateLoop, adjudicateLoopT, if_neg h1, hp, hv, ih _ _ _ _]

/-- When the failure tolerance starts below 1, every entry is refused:
nothing is emitted and the bucket is unchanged. -/
theorem adjudicateLoop_tol_lt_one (counter : RaftServers → Int) (m : Nat) :
    ∀ (pending kept : RaftServers) (tol : Int) (ids : List ServerID),
      tol < 1 →
      adjudicateLoop counter m tol kept pending ids = (ids, kept ++ pending) := by
  intro pending
  induction pending with
  | nil =>
    intro kept tol ids h
    simp [adjudicateLoop]
  | cons e rest ih =>
    obtain ⟨id, v⟩ := e
    intro kept tol ids h
    simp only [adjudicateLoop, if_pos h]
    rw [ih _ _ _ h]
    simp

/-- If the quorum gate of the adjudicator let a potential voter
through, the count at that moment was at least `minQuorum + 1`. -/
theorem gate_passed {v : VoterEligibility} {c : Int} {m : Nat}
    (h2 : ¬((v.IsPotentialVoter && !isRemovalQuorate c m) = true))
    (hp : v.potentialVoter = true) : (m : Int) ≤ c - 1 := by
  simp only [VoterEligibility.IsPotentialVoter, hp, Bool.true_and,
    Bool.not_eq_true, Bool.not_eq_false] at h2
  simpa [isRemovalQuorate] using h2

/-- Loop invariant behind the quorum-safety theorem: along the loop the
potential-voter count (of the shape at the failed-bucket call sites)
never drops below `min` of its starting value and `minQuorum`, because
each accepted potential voter passed the quorum gate at acceptance time
and accepted non-potential entries do not change the count. -/
theorem adjudicateLoop_count_min (base m : Nat) :
    ∀ (pending kept : RaftServers) (tol : Int) (ids : List ServerID),
      min (base + countPotential (kept ++ pending)) m ≤
        base + countPotential
          ((adjudicateLoop (potCounter base) m tol kept pending ids).2) := by
  intro pending
  induction pending with
  | nil =>
    intro kept tol ids
    simp only [adjudicateLoop, List.append_nil]
    exact min_le_left _ _
  | cons e rest ih =>
    obtain ⟨id, v⟩ := e
    intro kept tol ids
    simp only [adjudicateLoop]
    split_ifs with h1 h2 h3
    · have H := ih (kept ++ [(id, v)]) tol ids
      simp only [countPotential, List.countP_append, List.countP_cons,
        List.countP_nil] at H ⊢
      omega
    · have H := ih (kept ++ [(id, v)]) tol ids
      simp only [countPotential, List.countP_append, List.countP_cons,
        List.countP_nil] at H ⊢
      omega
    · have H := ih kept (tol - 1) (ids ++ [id])
      by_cases hp : v.potentialVoter
      · have harith := gate_passed h2 hp
        simp only [potCounter] at harith
        simp [countPotential, List.countP_append, List.countP_cons, hp]
          at H harith ⊢
        omega
      · rw [Bool.not_eq_true] at hp
        simp [countPotential, List.countP_append, List.countP_cons, hp]
          at H ⊢
        omega
    · have H := ih kept tol (ids ++ [id])
      by_cases hp : v.potentialVoter
      · have harith := gate_passed h2 hp
        simp only [potCounter] at harith
        simp [countPotential, List.countP_append, List.countP_cons, hp]
          at H harith ⊢
        omega
      · rw [Bool.not_eq_true] at hp
        simp [countPotential, List.countP_append, List.countP_cons, hp]
          at H ⊢
        omega

/-- C1 (amended): for every starting bucket and minQuorum, with the
`voterCountProvider` of the shape used by `pruneDeadServers`
(`base` potential voters outside the bucket plus those in the current
bucket): (a) provided the count starts at least `minQuorum`, after all
emitted removals it is still at least `minQuorum`; and (b) when the
initial count's failure tolerance is 0 the adjudicator emits nothing
and leaves the bucket untouched, so every initially present voter
remains.  Unconditionally the count cannot end below `minQuorum` unless
it already started there (see the counterexample for why the claim's
unconditional form fails). -/
theorem adjudicateRemoval_minQuorum_safety (base minQuorum : Nat)
    (s : RaftServers)
    (hinit : minQuorum ≤ base + countPotential s) :
    minQuorum ≤
      base + countPotential
        ((adjudicateRemoval (potCounter base) s minQuorum).2) ∧
    (getFailureTolerance (potCounter base s) = 0 →
      adjudicateRemoval (potCounter base) s minQuorum = ([], s)) := by
  constructor
  · have H := adjudicateLoop_count_min base minQuorum s []
      (getFailureTolerance (potCounter base s)) []
    unfold adjudicateRemoval
    simp only [List.nil_append] at H
    omega
  · intro h0
    unfold adjudicateRemoval
    rw [adjudicateLoop_tol_lt_one _ _ _ _ _ _ (by omega)]
    simp

/-- Witness for `adjudicateRemoval_minQuorum_safety`: base 2,
one potential current voter in the bucket, minQuorum 2. -/
theorem adjudicateRemoval_minQuorum_safety_witness :
    2 ≤ 2 + countPotential [(("F" : ServerID), (⟨true, true⟩ : VoterEligibility))] ∧
    (2 ≤ 2 + countPotential
        ((adjudicateRemoval (potCounter 2) [("F", ⟨true, true⟩)] 2).2) ∧
      (getFailureTolerance (potCounter 2 [("F", ⟨true, true⟩)]) = 0 →
        adjudicateRemoval (potCounter 2) [("F", ⟨true, true⟩)] 2 =
          ([], [("F", ⟨true, true⟩)]))) :=
  ⟨by decide,
    adjudicateRemoval_minQuorum_safety 2 2 [("F", ⟨true, true⟩)] (by decide)⟩

/-- C1 (counterexample): with three potential voters elsewhere
(`base = 3`), a stale bucket holding one current voter that is not a
potential voter, and minQuorum 5, the adjudicator emits that voter even
though the remaining potential-voter count, 3, is below minQuorum —
the quorum gate never applies to non-potential voters, so the claimed
unconditional bound fails. -/
theorem adjudicateRemoval_minQuorum_counterexample :
    (adjudicateRemoval (potCounter 3) [(("s1" : ServerID), ⟨true, false⟩)] 5).1 =
      ["s1"] ∧
    3 + countPotential
        ((adjudicateRemoval (potCounter 3) [(("s1" : ServerID), ⟨true, false⟩)] 5).2) <
      5 := by
  decide

/-- `countKey` on the empty map. -/
theorem countKey_nil (k : ServerID) : countKey k [] = 0 := rfl

/-- `countKey` on a cons cell, with the key test as a proposition. -/
theorem countKey_cons (k : ServerID) (e : ServerID × VoterEligibility)
    (rest : RaftServerEligibility) :
    countKey k (e :: rest) = countKey k rest + if e.1 = k then 1 else 0 := by
  simp [countKey, List.countP_cons]

/-- `countKey` distributes over append. -/
theorem countKey_append (k : ServerID) (l1 l2 : RaftServerEligibility) :
    countKey k (l1 ++ l2) = countKey k l1 + countKey k l2 := by
  simp [countKey, List.countP_append]

/-- `countKey` after a map write: the written key has exactly one
binding, every other key is untouched. -/
theorem countKey_insertKey (k k2 : ServerID) (v : VoterEligibility) :
    ∀ l : RaftServerEligibility,
      countKey k (insertKey l k2 v) = if k = k2 then 1 else countKey k l := by
  intro l
  induction l with
  | nil =>
    by_cases h : k = k2
    · subst h
      simp [insertKey, countKey_cons, countKey_nil]
    · have h2 : ¬ k2 = k := fun hh => h hh.symm
      simp [insertKey, countKey_cons, countKey_nil, h, h2]
  | cons e rest ih =>
    simp only [insertKey]
    by_cases he : e.1 = k2
    · rw [if_pos (by simp [he]), ih]
      by_cases h : k = k2
      · simp [h]
      · have hek : ¬ e.1 = k := fun hh => h (hh ▸ he)
        simp [h, countKey_cons, hek]
    · rw [if_neg (by simp [he])]
      rw [countKey_cons, ih]
      by_cases h : k = k2
      · have hek : ¬ e.1 = k := fun hh => he (hh.trans h)
        simp [h, countKey_cons, hek, he]
      · simp [h, countKey_cons]

/-- `countKey` over a fold of map writes: exactly one binding for every
written key, the old count for the rest. -/
theorem countKey_foldl_insert (k : ServerID)
    (f : RaftServerRec → VoterEligibility) :
    ∀ (cfg : List RaftServerRec) (m : RaftServerEligibility),
      countKey k (cfg.foldl (fun acc s => insertKey acc s.id (f s)) m) =
        if k ∈ cfg.map RaftServerRec.id then 1 else countKey k m := by
  intro cfg
  induction cfg with
  | nil => intro m; simp
  | cons hd tl ih =>
    intro m
    simp only [List.foldl_cons, List.map_cons, List.mem_cons]
    rw [ih]
    rw [countKey_insertKey]
    by_cases h1 : k ∈ tl.map RaftServerRec.id
    · simp [h1]
    · by_cases h2 : k = hd.id <;> simp [h1, h2]

/-- Specialization to `getRaftServerIds`: one binding per configured
ID, none for any other ID. -/
theorem getRaftServerIds_countKey (k : ServerID) (cfg : List RaftServerRec) :
    countKey k (getRaftServerIds cfg) =
      if k ∈ cfg.map RaftServerRec.id then 1 else 0 := by
  have h := countKey_foldl_insert k
    (fun s => { currentVoter := s.suffrage == RaftSuffrage.voter
                potentialVoter := false }) cfg []
  simpa [getRaftServerIds, countKey_nil] using h

/-- Deleting a present key removes exactly one of its bindings. -/
theorem countKey_eraseKey_self (k : ServerID) (v : VoterEligibility) :
    ∀ l : RaftServerEligibility, List.lookup k l = some v →
      countKey k (eraseKey k l) + 1 = countKey k l := by
  intro l
  induction l with
  | nil => intro h; simp [List.lookup] at h
  | cons e rest ih =>
    obtain ⟨k1, v1⟩ := e
    intro h
    by_cases hk : k1 = k
    · subst hk
      simp only [eraseKey, beq_self_eq_true, if_true]
      rw [countKey_cons]
      simp
    · have hb : List.lookup k ((k1, v1) :: rest) = List.lookup k rest := by
        simp [List.lookup_cons, beq_false_of_ne (fun hh => hk hh.symm)]
      rw [hb] at h
      simp only [eraseKey]
      rw [if_neg (by simp [hk])]
      have H := ih h
      simp only [countKey_cons]
      simp [hk]
      omega

/-- Deleting one key leaves the bindings of every other key alone. -/
theorem countKey_eraseKey_ne (k k2 : ServerID) (h : ¬ k = k2) :
    ∀ l : RaftServerEligibility,
      countKey k (eraseKey k2 l) = countKey k l := by
  intro l
  induction l with
  | nil => simp [eraseKey]
  | cons e rest ih =>
    simp only [eraseKey]
    by_cases he : e.1 = k2
    · rw [if_pos (by simp [he])]
      have hek : ¬ e.1 = k := fun hh => h (hh.symm.trans he)
      simp [countKey_cons, hek]
    · rw [if_neg (by simp [he])]
      simp [countKey_cons, ih]

/-- `FilterVoters false` and `FilterVoters true` split a map into two
parts without losing or duplicating bindings. -/
theorem FilterVoters_countKey (k : ServerID) :
    ∀ l : RaftServerEligibility,
      countKey k (l.FilterVoters false) + countKey k (l.FilterVoters true) =
        countKey k l := by
  intro l
  induction l with
  | nil => rfl
  | cons e rest ih =>
    simp only [RaftServerEligibility.FilterVoters] at ih ⊢
    cases hb : e.2.IsCurrentVoter
    · rw [List.filter_cons_of_pos (by simp [hb]),
        List.filter_cons_of_neg (by simp [hb])]
      simp only [countKey_cons]
      omega
    · rw [List.filter_cons_of_neg (by simp [hb]),
        List.filter_cons_of_pos (by simp [hb])]
      simp only [countKey_cons]
      omega

/-- One categorizer step moves one binding from the working map into a
bucket: the total per-key binding count is preserved. -/
theorem bucket_step_count (k id : ServerID) (v2 : VoterEligibility)
    (working : RaftServers) (v : VoterEligibility)
    (hl : List.lookup id working = some v) (bucket : RaftServers) :
    countKey k (eraseKey id working) + countKey k (bucket ++ [(id, v2)]) =
      countKey k working + countKey k bucket := by
  rw [countKey_append]
  by_cases hk : k = id
  · subst hk
    have H := countKey_eraseKey_self k v working hl
    rw [countKey_cons]
    simp [countKey_nil]
    omega
  · have H := countKey_eraseKey_ne k id hk working
    have hik : ¬ id = k := fun hh => hk hh.symm
    have h2 : countKey k [(id, v2)] = 0 := by
      rw [countKey_cons]
      simp [hik, countKey_nil]
    omega

/-- Loop invariant of the categorizer: the number of bindings of any
key across the working map and the four accumulated buckets is
preserved by every step, and at the end the working map is split
exactly into the two stale buckets. -/
theorem categorizeLoop_count (k : ServerID) :
    ∀ (known : List (ServerID × Server))
      (working fv fnv hv hnv : RaftServers),
      bucketsCount (categorizeLoop known working fv fnv hv hnv) k =
        countKey k working + countKey k fv + countKey k fnv +
          countKey k hv + countKey k hnv := by
  intro known
  induction known with
  | nil =>
    intro working fv fnv hv hnv
    simp only [categorizeLoop, bucketsCount]
    have h := FilterVoters_countKey k working
    omega
  | cons e rest ih =>
    obtain ⟨id, srv⟩ := e
    intro working fv fnv hv hnv
    simp only [categorizeLoop]
    cases hl : List.lookup id working with
    | none => rw [ih]
    | some v =>
      simp only []
      split_ifs with h1 h2 h3 <;> rw [ih]
      · have H := bucket_step_count k id
          { v with potentialVoter := srv.nodeType == NodeVoter }
          working v hl hv
        omega
      · have H := bucket_step_count k id
          { v with potentialVoter := srv.nodeType == NodeVoter }
          working v hl hnv
        omega
      · have H := bucket_step_count k id
          { v with potentialVoter := srv.nodeType == NodeVoter }
          working v hl fv
        omega
      · have H := bucket_step_count k id
          { v with potentialVoter := srv.nodeType == NodeVoter }
          working v hl fnv
        omega

/-- C7: after categorization the six buckets partition the union of
the consensus-config IDs with the known-server IDs restricted to
consensus-config IDs — every such ID has exactly one binding across the
six buckets, and every other ID has none. -/
theorem categorizeServers_partition (cfg : List RaftServerRec)
    (known : List (ServerID × Server)) (id : ServerID) :
    bucketsCount (categorizeServers cfg known) id =
      if id ∈ cfg.map RaftServerRec.id ∨
          (id ∈ known.map Prod.fst ∧ id ∈ cfg.map RaftServerRec.id) then 1
      else 0 := by
  unfold categorizeServers
  rw [categorizeLoop_count]
  rw [getRaftServerIds_countKey]
  simp only [countKey_nil]
  by_cases h : id ∈ cfg.map RaftServerRec.id <;> simp [h]

/-- Every call issued by the promotions loop is an add-voter call. -/
theorem promoLoop_calls_addVoter (state : State) (addOk : ServerID → Bool) :
    ∀ (promos : List ServerID) (promoted : Bool) (c : AdapterCall),
      c ∈ (promoLoop state addOk promos promoted).2.1 →
      ∃ i, c = AdapterCall.addVoter i := by
  intro promos
  induction promos with
  | nil => intro promoted c h; simp [promoLoop] at h
  | cons change rest ih =>
    intro promoted c h
    cases hl : List.lookup change state.servers with
    | none =>
      simp only [promoLoop, hl] at h
      exact ih _ _ h
    | some srv =>
      simp only [promoLoop, hl] at h
      split_ifs at h with h1 h2 h3
      · exact ih _ _ h
      · exact ih _ _ h
      · rcases List.mem_cons.mp h with hc | hc
        · exact ⟨_, hc⟩
        · exact ih _ _ hc
      · simp at h
        exact ⟨_, h⟩

/-- Once something has been promoted, the loop reports it promoted. -/
theorem promoLoop_true_done (state : State) (addOk : ServerID → Bool) :
    ∀ promos, (promoLoop state addOk promos true).1 = true := by
  intro promos
  induction promos with
  | nil => rfl
  | cons change rest ih =>
    cases hl : List.lookup change state.servers with
    | none => simp only [promoLoop, hl]; exact ih
    | some srv =>
      simp only [promoLoop, hl]
      split_ifs with h1 h2 h3
      · exact ih
      · exact ih
      · exact ih
      · rfl

/-- If the promotions loop reports nothing promoted, it issued no
adapter calls. -/
theorem promoLoop_not_done_nil (state : State) (addOk : ServerID → Bool) :
    ∀ promos, (promoLoop state addOk promos false).1 = false →
      (promoLoop state addOk promos false).2.1 = [] := by
  intro promos
  induction promos with
  | nil => intro h; rfl
  | cons change rest ih =>
    intro h
    cases hl : List.lookup change state.servers with
    | none =>
      simp only [promoLoop, hl] at h ⊢
      exact ih h
    | some srv =>
      simp only [promoLoop, hl] at h ⊢
      split_ifs at h ⊢ with h1 h2 h3
      all_goals
        first
        | exact ih h
        | exact absurd h (by simp [promoLoop_true_done])

/-- Every call issued by the demotions loop is a demote-voter call. -/
theorem demoLoop_calls_demoteVoter (state : State) (demOk : ServerID → Bool) :
    ∀ (demos : List ServerID) (demoted : Bool) (c : AdapterCall),
      c ∈ (demoLoop state demOk demos demoted).2.1 →
      ∃ i, c = AdapterCall.demoteVoter i := by
  intro demos
  induction demos with
  | nil => intro demoted c h; simp [demoLoop] at h
  | cons change rest ih =>
    intro demoted c h
    cases hl : List.lookup change state.servers with
    | none =>
      simp only [demoLoop, hl] at h
      exact ih _ _ h
    | some srv =>
      simp only [demoLoop, hl] at h
      split_ifs at h with h1 h2
      · exact ih _ _ h
      · rcases List.mem_cons.mp h with hc | hc
        · exact ⟨_, hc⟩
        · exact ih _ _ hc
      · simp at h
        exact ⟨_, h⟩

/-- Once something has been demoted, the loop reports it demoted. -/
theorem demoLoop_true_done (state : State) (demOk : ServerID → Bool) :
    ∀ demos, (demoLoop state demOk demos true).1 = true := by
  intro demos
  induction demos with
  | nil => rfl
  | cons change rest ih =>
    cases hl : List.lookup change state.servers with
    | none => simp only [demoLoop, hl]; exact ih
    | some srv =>
      simp only [demoLoop, hl]
      split_ifs with h1 h2
      · exact ih
      · exact ih
      · rfl

/-- If the demotions loop reports nothing demoted, it issued no
adapter calls. -/
theorem demoLoop_not_done_nil (state : State) (demOk : ServerID → Bool) :
    ∀ demos, (demoLoop state demOk demos false).1 = false →
      (demoLoop state demOk demos false).2.1 = [] := by
  intro demos
  induction demos with
  | nil => intro h; rfl
  | cons change rest ih =>
    intro h
    cases hl : List.lookup change state.servers with
    | none =>
      simp only [demoLoop, hl] at h ⊢
      exact ih h
    | some srv =>
      simp only [demoLoop, hl] at h ⊢
      split_ifs at h ⊢ with h1 h2
      all_goals
        first
        | exact ih h
        | exact absurd h (by simp [demoLoop_true_done])

/-- In a key-consistent server map, a record found under a key carries
that key as its ID. -/
theorem lookup_all_id :
    ∀ (l : List (ServerID × ServerState)),
      l.all (fun e => e.2.server.id == e.1) = true →
      ∀ (k : ServerID) (srv : ServerState),
        List.lookup k l = some srv → srv.server.id = k := by
  intro l
  induction l with
  | nil => intro hall k srv h; simp [List.lookup] at h
  | cons e rest ih =>
    intro hall k srv h
    obtain ⟨k1, s1⟩ := e
    rw [List.all_cons] at hall
    obtain ⟨h1, h2⟩ := (Bool.and_eq_true _ _).mp hall
    by_cases hk : k = k1
    · subst hk
      simp only [List.lookup_cons, beq_self_eq_true] at h
      obtain rfl : s1 = srv := by simpa using h
      simpa using h1
    · simp only [List.lookup_cons, beq_false_of_ne hk] at h
      exact ih h2 k srv h


/-- The promotions loop only issues add-voter calls for servers that
are found in the state, do not already have voting rights, and are
healthy. -/
theorem promoLoop_addVoter_mem (state : State) (addOk : ServerID → Bool)
    (hcons : keyConsistent state = true) :
    ∀ (promos : List ServerID) (promoted : Bool) (i : ServerID),
      AdapterCall.addVoter i ∈ (promoLoop state addOk promos promoted).2.1 →
      ∃ srv, List.lookup i state.servers = some srv ∧
        srv.HasVotingRights = false ∧ srv.health.healthy = true := by
  intro promos
  induction promos with
  | nil => intro promoted i h; simp [promoLoop] at h
  | cons change rest ih =>
    intro promoted i h
    cases hl : List.lookup change state.servers with
    | none =>
      simp only [promoLoop, hl] at h
      exact ih _ _ h
    | some srv =>
      simp only [promoLoop, hl] at h
      split_ifs at h with h1 h2 h3
      · exact ih _ _ h
      · exact ih _ _ h
      · rcases List.mem_cons.mp h with hc | hc
        · have hid : srv.server.id = change :=
            lookup_all_id state.servers hcons change srv hl
          have hi : i = srv.server.id := by simpa using hc
          refine ⟨srv, ?_, ?_, ?_⟩
          · rw [hi, hid]; exact hl
          · simp only [Bool.not_eq_true] at h1; exact h1
          · simpa using h2
        · exact ih _ _ hc
      · simp only [List.mem_singleton] at h
        have hid : srv.server.id = change :=
          lookup_all_id state.servers hcons change srv hl
        have hi : i = srv.server.id := by simpa using h
        refine ⟨srv, ?_, ?_, ?_⟩
        · rw [hi, hid]; exact hl
        · simp only [Bool.not_eq_true] at h1; exact h1
        · simpa using h2

/-- The demotions loop only issues demote-voter calls for servers that
are found in the state and whose role is not exactly non-voter. -/
theorem demoLoop_demote_mem (state : State) (demOk : ServerID → Bool)
    (hcons : keyConsistent state = true) :
    ∀ (demos : List ServerID) (demoted : Bool) (i : ServerID),
      AdapterCall.demoteVoter i ∈ (demoLoop state demOk demos demoted).2.1 →
      ∃ srv, List.lookup i state.servers = some srv ∧
        ¬ srv.state = RaftState.nonVoter := by
  intro demos
  induction demos with
  | nil => intro demoted i h; simp [demoLoop] at h
  | cons change rest ih =>
    intro demoted i h
    cases hl : List.lookup change state.servers with
    | none =>
      simp only [demoLoop, hl] at h
      exact ih _ _ h
    | some srv =>
      simp only [demoLoop, hl] at h
      split_ifs at h with h1 h2
      · exact ih _ _ h
      · rcases List.mem_cons.mp h with hc | hc
        · have hid : srv.server.id = change :=
            lookup_all_id state.servers hcons change srv hl
          have hi : i = srv.server.id := by simpa using hc
          refine ⟨srv, ?_, ?_⟩
          · rw [hi, hid]; exact hl
          · simpa using h1
        · exact ih _ _ hc
      · simp only [List.mem_singleton] at h
        have hid : srv.server.id = change :=
          lookup_all_id state.servers hcons change srv hl
        have hi : i = srv.server.id := by simpa using h
        refine ⟨srv, ?_, ?_⟩
        · rw [hi, hid]; exact hl
        · simpa using h1

/-- When every demote call succeeds, the demotions loop issues a
demote-voter call for every listed ID that is present in the state
with a role other than non-voter — in particular for staging servers
and for servers with no role, which have no voting rights. -/
theorem demoLoop_mem_of (state : State) (demOk : ServerID → Bool)
    (hcons : keyConsistent state = true)
    (hok : ∀ j, demOk j = true) :
    ∀ (demos : List ServerID) (demoted : Bool) (i : ServerID)
      (srv : ServerState), i ∈ demos →
      List.lookup i state.servers = some srv →
      ¬ srv.state = RaftState.nonVoter →
      AdapterCall.demoteVoter i ∈ (demoLoop state demOk demos demoted).2.1 := by
  intro demos
  induction demos with
  | nil => intro demoted i srv h; simp at h
  | cons change rest ih =>
    intro demoted i srv hmem hl hnv
    rcases List.mem_cons.mp hmem with rfl | hmem2
    · simp only [demoLoop, hl]
      rw [if_neg (by simp [hnv])]
      rw [if_pos (hok srv.server.id)]
      have hid : srv.server.id = i :=
        lookup_all_id state.servers hcons i srv hl
      rw [hid]
      exact List.mem_cons_self _ _
    · cases hl3 : List.lookup change state.servers with
      | none =>
        simp only [demoLoop, hl3]
        exact ih _ _ _ hmem2 hl hnv
      | some srv3 =>
        simp only [demoLoop, hl3]
        split_ifs with h1 h2
        · exact ih _ _ _ hmem2 hl hnv
        · exact List.mem_cons_of_mem _ (ih _ _ _ hmem2 hl hnv)
        · exact absurd (hok srv3.server.id) h2


/-- Case analysis of one reconcile pass: the issued trace is empty, or
it is exactly the promotions trace, or exactly the demotions trace
(promotions issued nothing, or demotions would not have run), or
exactly one leadership-transfer call (both loops issued nothing). -/
theorem reconcile_trace_split (enabled : Bool) (confOpt : Option Config)
    (stateOpt : Option State) (promoter : Config → State → RaftChanges)
    (addOk demOk trOk : ServerID → Bool) :
    (reconcile enabled confOpt stateOpt promoter addOk demOk trOk).1 = [] ∨
    (∃ conf state, confOpt = some conf ∧ stateOpt = some state ∧
      ((reconcile enabled confOpt stateOpt promoter addOk demOk trOk).1 =
          (applyPromotions state (promoter conf state) addOk).2.1 ∨
        (reconcile enabled confOpt stateOpt promoter addOk demOk trOk).1 =
          (applyDemotions state (promoter conf state) demOk).2.1 ∨
        (reconcile enabled confOpt stateOpt promoter addOk demOk trOk).1 =
          [AdapterCall.leadershipTransfer (promoter conf state).leader])) := by
  by_cases he : enabled
  case neg => exact Or.inl (by simp [reconcile, he])
  case pos =>
  cases confOpt with
  | none => exact Or.inl (by simp [reconcile, he])
  | some conf =>
  cases stateOpt with
  | none => exact Or.inl (by simp [reconcile, he])
  | some state =>
  by_cases hleader : state.leader == ""
  · exact Or.inl (by simp [reconcile, he, hleader])
  · by_cases hp : (applyPromotions state (promoter conf state) addOk).1
    · exact Or.inr ⟨conf, state, rfl, rfl,
        Or.inl (by simp [reconcile, he, hleader, hp])⟩
    · have hp0 : (applyPromotions state (promoter conf state) addOk).1 = false := by
        simpa using hp
      have hpnil : (applyPromotions state (promoter conf state) addOk).2.1 = [] :=
        promoLoop_not_done_nil state addOk _ hp0
      by_cases hd : (applyDemotions state (promoter conf state) demOk).1
      · exact Or.inr ⟨conf, state, rfl, rfl, Or.inr (Or.inl
          (by simp [reconcile, he, hleader, hp, hd, hpnil]))⟩
      · have hd0 : (applyDemotions state (promoter conf state) demOk).1 = false := by
          simpa using hd
        have hdnil : (applyDemotions state (promoter conf state) demOk).2.1 = [] :=
          demoLoop_not_done_nil state demOk _ hd0
        by_cases ht : ((promoter conf state).leader == "" ||
            (promoter conf state).leader == state.leader)
        · exact Or.inl
            (by simp [reconcile, he, hleader, hp, hd, hpnil, hdnil, ht])
        · cases hlk : List.lookup (promoter conf state).leader state.servers with
          | none =>
            exact Or.inl
              (by simp [reconcile, he, hleader, hp, hd, hpnil, hdnil, ht, hlk])
          | some s2 =>
            exact Or.inr ⟨conf, state, rfl, rfl, Or.inr (Or.inr
              (by simp [reconcile, he, hleader, hp, hd, hpnil, hdnil, ht, hlk]))⟩

/-- C6: one class of membership change per pass — if a reconcile pass
issues at least one add-voter call, it issues no demote-voter and no
leadership-transfer call; and if it issues at least one demote-voter
call, it issues no leadership-transfer call. -/
theorem reconcile_one_class_per_pass (enabled : Bool) (confOpt : Option Config)
    (stateOpt : Option State) (promoter : Config → State → RaftChanges)
    (addOk demOk trOk : ServerID → Bool) :
    (∀ i, AdapterCall.addVoter i ∈
        (reconcile enabled confOpt stateOpt promoter addOk demOk trOk).1 →
      ∀ j, AdapterCall.demoteVoter j ∉
          (reconcile enabled confOpt stateOpt promoter addOk demOk trOk).1 ∧
        AdapterCall.leadershipTransfer j ∉
          (reconcile enabled confOpt stateOpt promoter addOk demOk trOk).1) ∧
    (∀ i, AdapterCall.demoteVoter i ∈
        (reconcile enabled confOpt stateOpt promoter addOk demOk trOk).1 →
      ∀ j, AdapterCall.leadershipTransfer j ∉
          (reconcile enabled confOpt stateOpt promoter addOk demOk trOk).1) := by
  rcases reconcile_trace_split enabled confOpt stateOpt promoter addOk demOk trOk
    with h0 | ⟨conf, state, _, _, h1 | h2 | h3⟩
  · constructor
    · intro i hi; rw [h0] at hi; simp at hi
    · intro i hi; rw [h0] at hi; simp at hi
  · constructor
    · intro i hi j
      constructor
      · intro hj
        rw [h1] at hj
        obtain ⟨i0, hne⟩ := promoLoop_calls_addVoter state addOk _ _ _ hj
        simp at hne
      · intro hj
        rw [h1] at hj
        obtain ⟨i0, hne⟩ := promoLoop_calls_addVoter state addOk _ _ _ hj
        simp at hne
    · intro i hi
      rw [h1] at hi
      obtain ⟨i0, hne⟩ := promoLoop_calls_addVoter state addOk _ _ _ hi
      simp at hne
  · constructor
    · intro i hi
      rw [h2] at hi
      obtain ⟨i0, hne⟩ := demoLoop_calls_demoteVoter state demOk _ _ _ hi
      simp at hne
    · intro i hi j hj
      rw [h2] at hj
      obtain ⟨i0, hne⟩ := demoLoop_calls_demoteVoter state demOk _ _ _ hj
      simp at hne
  · constructor
    · intro i hi
      rw [h3] at hi
      simp at hi
    · intro i hi
      rw [h3] at hi
      simp at hi

/-- Witness for `reconcile_one_class_per_pass`: with state
{A leader, B voter, C healthy non-voter, S staging} and the mixed
change set {promotions = [C], demotions = [B], leader = B}, the pass
issues the add-voter call for C and no demote or transfer call. -/
theorem reconcile_one_class_per_pass_witness :
    AdapterCall.addVoter "C" ∈
      (reconcile true (some witConfig) (some witState) witPromoter
        allOk allOk allOk).1 ∧
    AdapterCall.demoteVoter "B" ∉
      (reconcile true (some witConfig) (some witState) witPromoter
        allOk allOk allOk).1 ∧
    AdapterCall.leadershipTransfer "B" ∉
      (reconcile true (some witConfig) (some witState) witPromoter
        allOk allOk allOk).1 :=
  ⟨by decide,
    (reconcile_one_class_per_pass true (some witConfig) (some witState)
      witPromoter allOk allOk allOk).1 "C" (by decide) "B"⟩

/-- C8: reconcile never issues an add-voter call for a server that
already has voting rights or whose health record is not healthy, and
promotion IDs absent from the state receive no add-voter call. -/
theorem reconcile_promotion_gate (enabled : Bool) (confOpt : Option Config)
    (state : State) (promoter : Config → State → RaftChanges)
    (addOk demOk trOk : ServerID → Bool)
    (hcons : keyConsistent state = true) :
    (∀ i, AdapterCall.addVoter i ∈
        (reconcile enabled confOpt (some state) promoter addOk demOk trOk).1 →
      ∃ srv, List.lookup i state.servers = some srv ∧
        srv.HasVotingRights = false ∧ srv.health.healthy = true) ∧
    (∀ i, List.lookup i state.servers = none →
      AdapterCall.addVoter i ∉
        (reconcile enabled confOpt (some state) promoter addOk demOk trOk).1) := by
  have main : ∀ i, AdapterCall.addVoter i ∈
      (reconcile enabled confOpt (some state) promoter addOk demOk trOk).1 →
      ∃ srv, List.lookup i state.servers = some srv ∧
        srv.HasVotingRights = false ∧ srv.health.healthy = true := by
    intro i hi
    rcases reconcile_trace_split enabled confOpt (some state) promoter
      addOk demOk trOk with h0 | ⟨conf, state2, hc, hs, h1 | h2 | h3⟩
    · rw [h0] at hi; simp at hi
    · obtain rfl : state = state2 := Option.some.inj hs
      rw [h1] at hi
      exact promoLoop_addVoter_mem state addOk hcons _ _ i hi
    · rw [h2] at hi
      obtain ⟨i0, hne⟩ := demoLoop_calls_demoteVoter state2 demOk _ _ _ hi
      simp at hne
    · rw [h3] at hi; simp at hi
  refine ⟨main, fun i hnone hi => ?_⟩
  obtain ⟨srv, hl, _, _⟩ := main i hi
  rw [hnone] at hl
  simp at hl

/-- Witness for `reconcile_promotion_gate`: applied to the concrete
single-promotion pass; C is found in the state, has no voting rights,
and is healthy. -/
theorem reconcile_promotion_gate_witness :
    keyConsistent witState = true ∧
    (∃ srv, List.lookup "C" witState.servers = some srv ∧
      srv.HasVotingRights = false ∧ srv.health.healthy = true) :=
  ⟨by decide,
    (reconcile_promotion_gate true (some witConfig) witState witPromoter
      allOk allOk allOk (by decide)).1 "C" (by decide)⟩

/-- C9: reconcile returns success with no adapter calls when disabled
or when the active config is absent, and returns an error with no
adapter calls when the state is absent or its leader is empty. -/
theorem reconcile_preconditions (enabled : Bool) (confOpt : Option Config)
    (stateOpt : Option State) (promoter : Config → State → RaftChanges)
    (addOk demOk trOk : ServerID → Bool) :
    ((enabled = false ∨ confOpt = none) →
      reconcile enabled confOpt stateOpt promoter addOk demOk trOk =
        ([], none)) ∧
    (enabled = true → ∀ conf, confOpt = some conf → stateOpt = none →
      reconcile enabled confOpt stateOpt promoter addOk demOk trOk =
        ([], some RecError.preconditionNotMet)) ∧
    (enabled = true → ∀ conf state, confOpt = some conf →
      stateOpt = some state → state.leader = "" →
      reconcile enabled confOpt stateOpt promoter addOk demOk trOk =
        ([], some RecError.preconditionNotMet)) := by
  refine ⟨?_, ?_, ?_⟩
  · rintro (h | h)
    · simp [reconcile, h]
    · subst h
      by_cases he : enabled <;> simp [reconcile, he]
  · intro he conf hc hs
    subst he
    subst hc
    subst hs
    simp [reconcile]
  · intro he conf state hc hs hl
    subst he
    subst hc
    subst hs
    simp [reconcile, hl]

/-- Witness for `reconcile_preconditions`: a disabled pass and a pass
without a state. -/
theorem reconcile_preconditions_witness :
    reconcile false none none witPromoter allOk allOk allOk = ([], none) ∧
    reconcile true (some witConfig) none witPromoter allOk allOk allOk =
      ([], some RecError.preconditionNotMet) :=
  ⟨(reconcile_preconditions false none none witPromoter allOk allOk allOk).1
      (Or.inl rfl),
    (reconcile_preconditions true (some witConfig) none witPromoter
      allOk allOk allOk).2.1 rfl witConfig rfl rfl⟩

/-- C10: `applyDemotions` skips a listed, present server only when its
role is exactly non-voter; every demote-voter call it issues targets a
present server with some other role, and (when the adapter succeeds)
every listed present server with another role — in particular one in
staging or with no role, which has no voting rights — receives a
demote-voter call. -/
theorem applyDemotions_skips_only_nonvoter (state : State)
    (changes : RaftChanges) (demOk : ServerID → Bool)
    (hcons : keyConsistent state = true) :
    (∀ i, AdapterCall.demoteVoter i ∈
        (applyDemotions state changes demOk).2.1 →
      ∃ srv, List.lookup i state.servers = some srv ∧
        ¬ srv.state = RaftState.nonVoter) ∧
    ((∀ j, demOk j = true) → ∀ i srv, i ∈ changes.demotions →
      List.lookup i state.servers = some srv →
      ¬ srv.state = RaftState.nonVoter →
      AdapterCall.demoteVoter i ∈ (applyDemotions state changes demOk).2.1) := by
  constructor
  · intro i h
    exact demoLoop_demote_mem state demOk hcons _ _ i h
  · intro hok i srv hmem hl hnv
    exact demoLoop_mem_of state demOk hcons hok _ _ i srv hmem hl hnv

/-- Witness for `applyDemotions_skips_only_nonvoter`: the staging
server S (no voting rights) listed for demotion receives a
demote-voter call. -/
theorem applyDemotions_skips_only_nonvoter_witness :
    AdapterCall.demoteVoter "S" ∈
      (applyDemotions witState witDemChanges allOk).2.1 :=
  (applyDemotions_skips_only_nonvoter witState witDemChanges allOk
      (by decide)).2 (fun j => rfl) "S" srvS (by decide) (by decide) (by decide)


end Autopilot
